import Mathlib

/-!
Verification development for the per-voice synthesis core of the EmuSC
Sound Canvas emulator library: the AHDSR envelope generator
(`src/libemusc/src/ahdsr.cc`), the sample-position cursor of the PCM
playback engine (`Partial::_next_sample_from_rom` in
`src/libemusc/src/partial.cc`), and the voice shell around them
(`Partial::Partial`, `Partial::get_next_sample`).

Conventions of the embedding:

* Floating-point state (`double` in ahdsr.cc, `float` in partial.cc) is
  modelled over an exact ordered field: a generic `Field` for the envelope
  (so the machine is the same definition for `ℚ` and `ℝ`), and `ℚ` for the
  cursor.  All concrete traces below use dyadic rationals on which the
  source's `float` arithmetic is exact.
* Machine integers (`int`, `uint32_t`) are modelled as `ℤ`/`ℕ`; no claim
  below reaches an overflow of these 32-bit quantities.
* The class headers (`ahdsr.h`, `partial.h`) and the collaborator classes
  (`Settings`, the TVP/TVF/TVA wrappers, the `LowPassFilter`) are not under
  src/ in this snapshot; where one of them decides a definition the model
  follows the spec, and the definition's doc comment says so.
* The `while` loops of the cursor are modelled with explicit fuel; a loop
  that would not exit (or that would run the PCM access out of bounds)
  yields `none`, so abnormal behaviour is visible in the type.
-/

set_option maxHeartbeats 1000000
set_option linter.unusedSectionVars false

namespace EmuSC

/-- Envelope phase of the AHDSR generator.  Modelled from the spec: `ahdsr.h`
is not under src/; the spec orders the phases Off, Attack, Hold, Decay,
Sustain, Release, numbering them 0..5, with the per-phase tables holding the
five active phases' entries at indices 0..4 ("the log table is indexed by
`phase − 1`, so the Off entry is unused"). -/
inductive Phase where
  | Off
  | Attack
  | Hold
  | Decay
  | Sustain
  | Release
deriving DecidableEq, Repr

/-- Numbering of the phases used by the spec: Off = 0, ..., Release = 5. -/
def Phase.toIdx : Phase → ℕ
  | .Off => 0
  | .Attack => 1
  | .Hold => 2
  | .Decay => 3
  | .Sustain => 4
  | .Release => 5

/-- Index of an active phase's entry in the five-entry configuration tables
(`_phaseValue`, `_phaseDuration`, `_phaseShape`): the entry of phase `p` sits
at index `p.toIdx - 1`, so no index corresponds to Off. -/
def Phase.slot : Phase → Fin 5
  | .Off => ⟨0, by omega⟩    -- dead value: every use is behind an Off guard
  | .Attack => ⟨0, by omega⟩
  | .Hold => ⟨1, by omega⟩
  | .Decay => ⟨2, by omega⟩
  | .Sustain => ⟨3, by omega⟩
  | .Release => ⟨4, by omega⟩

theorem Phase.slot_eq_toIdx_sub_one (p : Phase) (h : p ≠ Phase.Off) :
    (p.slot : ℕ) = p.toIdx - 1 := by
  cases p <;> rfl

/-- Static configuration of one AHDSR envelope as it exists after the
constructor (`AHDSR::AHDSR`, ahdsr.cc lines 30-73): the five target values,
shape flags, and — modelled from the spec because it folds in `Settings`
reads and the transcendental `_convert_time_to_sec` (ahdsr.cc lines 144-163,
180-186) — the resulting per-phase sample length `round(seconds ·
sampleRate)`.  `logCurve i l` stands for the concave map
`log(10·i/l + 1)/log(11)` of ahdsr.cc line 231; it is a field so that the
same machine serves `ℚ` (for executable witnesses) and `ℝ` (where the claim
about the formula itself is stated against `realLogCurve` below). -/
structure EnvCfg (α : Type) where
  value : Fin 5 → α
  shape : Fin 5 → Bool
  phaseLen : Fin 5 → ℕ
  logCurve : ℕ → ℕ → α

/-- Dynamic state of one AHDSR envelope (`_phase`, `_phaseSampleIndex`,
`_phaseSampleLen`, `_phaseInitValue`, `_currentValue`, `_finished`). -/
structure EnvState (α : Type) where
  phase : Phase
  phaseSampleIndex : ℕ
  phaseSampleLen : ℕ
  phaseInitValue : α
  currentValue : α
  finished : Bool
deriving DecidableEq, Repr

variable {α : Type} [Field α] [DecidableEq α]

/-- Models `AHDSR::_init_new_phase` (ahdsr.cc lines 134-175): on Off it only
logs and returns; otherwise it latches the current value as the new phase's
initial value, loads the phase's sample length, and resets the sample
index. -/
def initNewPhase (cfg : EnvCfg α) (s : EnvState α) (newPhase : Phase) :
    EnvState α :=
  if newPhase = Phase.Off then s
  else
    { s with
      phaseInitValue := s.currentValue
      phaseSampleLen := cfg.phaseLen newPhase.slot
      phaseSampleIndex := 0
      phase := newPhase }

/-- Models the common tail of `AHDSR::get_next_value` (ahdsr.cc lines
222-247): zero-length phases jump to the target, otherwise the linear or the
log-shaped curve is evaluated at `p = sampleIndex / sampleLen`, the result is
stored in `_currentValue`, and the sample index advances. -/
def curveStep (cfg : EnvCfg α) (s : EnvState α) : EnvState α × α :=
  let target := cfg.value s.phase.slot
  let v :=
    if s.phaseSampleLen = 0 then target
    else if cfg.shape s.phase.slot = false then
      s.phaseInitValue + (target - s.phaseInitValue) *
        ((s.phaseSampleIndex : α) / (s.phaseSampleLen : α))
    else
      s.phaseInitValue + (target - s.phaseInitValue) *
        cfg.logCurve s.phaseSampleIndex s.phaseSampleLen
  ({ s with currentValue := v, phaseSampleIndex := s.phaseSampleIndex + 1 }, v)

/-- Models `AHDSR::get_next_value` (ahdsr.cc lines 189-248).  Off logs an
internal error and returns zero; Attack/Hold/Decay roll into the next phase
once the sample index passes the phase length; Sustain rolls into Release
only when the sustain target is zero and otherwise holds the current value
without advancing; Release past its length sets `_finished` and returns
zero. -/
def getNextValue (cfg : EnvCfg α) (s : EnvState α) : EnvState α × α :=
  match s.phase with
  | .Off => (s, 0)
  | .Attack =>
      if s.phaseSampleIndex > s.phaseSampleLen then
        curveStep cfg (initNewPhase cfg s Phase.Hold)
      else curveStep cfg s
  | .Hold =>
      if s.phaseSampleIndex > s.phaseSampleLen then
        curveStep cfg (initNewPhase cfg s Phase.Decay)
      else curveStep cfg s
  | .Decay =>
      if s.phaseSampleIndex > s.phaseSampleLen then
        curveStep cfg (initNewPhase cfg s Phase.Sustain)
      else curveStep cfg s
  | .Sustain =>
      if s.phaseSampleIndex > s.phaseSampleLen then
        if cfg.value Phase.Sustain.slot = 0 then
          curveStep cfg (initNewPhase cfg s Phase.Release)
        else (s, s.currentValue)          -- Sustain can last forever
      else curveStep cfg s
  | .Release =>
      if s.phaseSampleIndex > s.phaseSampleLen then
        ({ s with finished := true }, 0)
      else curveStep cfg s

/-- Models `AHDSR::start` (ahdsr.cc lines 128-131). -/
def envStart (cfg : EnvCfg α) (s : EnvState α) : EnvState α :=
  initNewPhase cfg s Phase.Attack

/-- Models `AHDSR::release` (ahdsr.cc lines 251-257): a second call during
Release is a no-op. -/
def envRelease (cfg : EnvCfg α) (s : EnvState α) : EnvState α :=
  if s.phase = Phase.Release then s
  else initNewPhase cfg s Phase.Release

/-- State as produced by the first constructor overload (ahdsr.cc lines
30-45): phase Off, current value 0, not finished.  The index/length members
are uninitialized in the source; they are set to 0 here, which is sound
because no path reads them before `_init_new_phase` assigns them. -/
def envInit : EnvState α :=
  { phase := Phase.Off
    phaseSampleIndex := 0
    phaseSampleLen := 0
    phaseInitValue := 0
    currentValue := 0
    finished := false }

/-- State after `n` calls to `get_next_value`, outputs discarded. -/
def envIter (cfg : EnvCfg α) : ℕ → EnvState α → EnvState α
  | 0, s => s
  | n + 1, s => envIter cfg n (getNextValue cfg s).1

/-- The log-shaped curve exactly as written in ahdsr.cc line 231:
`log(10.0 * _phaseSampleIndex / _phaseSampleLen + 1) / log(10.0 + 1)`. -/
noncomputable def realLogCurve (i l : ℕ) : ℝ :=
  Real.log (10 * (i : ℝ) / (l : ℝ) + 1) / Real.log (10 + 1)

/-!
Sample cursor (`Partial::_next_sample_from_rom`, partial.cc lines 237-333).
-/

/-- Round-half-away-from-zero, the behaviour of C `roundf` used throughout
the cursor code. -/
def roundf (x : ℚ) : ℤ :=
  if x < 0 then -⌊-x + 1 / 2⌋ else ⌊x + 1 / 2⌋

/-- Control-sample metadata consumed by the cursor (`_ctrlSample->sampleLen`,
`->loopLen`, `->loopMode`; the struct lives in the ROM collaborator). -/
structure CtrlSample where
  sampleLen : ℕ
  loopLen : ℕ
  loopMode : ℕ
deriving DecidableEq, Repr

/-- Static data of one cursor: the control-sample metadata, the PCM buffer
(`_pcmSamples`; a total function so that the model of `vector::at` never has
to fail — every claim below stays inside the loop guards), and the shared
reconstruction-filter step.  Modelled from the spec: the `LowPassFilter`
source is not under src/; the spec fixes only "two one-pole low-pass filters
in cascade, parameterised at construction (32000, 15)", so the per-sample map
`state → input → state × output` is a parameter.  `_rf1` and `_rf2` are two
instances of the same filter, hence one field. -/
structure CursorCfg where
  ctrl : CtrlSample
  pcm : ℤ → ℚ
  rfApply : ℚ → ℚ → ℚ × ℚ

/-- Dynamic state of one cursor (`_index`, `_direction`, `_lastPos`,
`_sample`, and the internal states of `_rf1`, `_rf2`).  The source
initialises `_direction(1)` and flips it between the literals `1` (forward)
and `0` (backward). -/
structure CursorState where
  index : ℚ
  direction : ℤ
  lastPos : ℤ
  sample : ℚ
  f1 : ℚ
  f2 : ℚ
deriving DecidableEq, Repr

/-- One consumption step shared by every cursor loop
(`_sample = _rf1.apply(_pcmSamples->at(_lastPos)); _sample =
_rf2.apply(_sample);` with `_lastPos` moving by `d` = ±1). -/
def consumeAt (cfg : CursorCfg) (d : ℤ) (s : CursorState) : CursorState :=
  let r1 := cfg.rfApply s.f1 (cfg.pcm s.lastPos)
  let r2 := cfg.rfApply s.f2 r1.2
  { s with f1 := r1.1, f2 := r2.1, sample := r2.2, lastPos := s.lastPos + d }

/-- Fuelled `while` loop.  `none` means the fuel ran out with the guard still
true, i.e. the source loop would keep running (used with a fuel that provably
dominates the loop's variant, so `none` marks genuine divergence). -/
def runWhile (g : CursorState → Prop) [DecidablePred g]
    (body : CursorState → CursorState) :
    ℕ → CursorState → Option CursorState
  | 0, s => if g s then none else some s
  | fuel + 1, s => if g s then runWhile g body fuel (body s) else some s

/-- Boundary handling of the forward direction (partial.cc lines 257-288):
dispatch on the loop mode once `_index` passed `sampleLen − 1`, re-anchoring
the index and resyncing `_lastPos`; loop mode 2 terminates the voice, any
other value falls through unchanged.  The unqualified `abs` of line 260 is
modelled as the real absolute value (the spec's `remaining = |sampleLen −
index|`); on platforms where it resolves to the integer `abs` the fraction
of `remaining` is truncated, which only shrinks `remaining` and does not
affect any claim proved here. -/
def fwdBoundary (cfg : CursorCfg) (s : CursorState) :
    Option (CursorState × Bool) :=
  let S : ℤ := cfg.ctrl.sampleLen
  let L : ℤ := cfg.ctrl.loopLen
  if s.index > (S : ℚ) - 1 then
    let remaining : ℚ := |(S : ℚ) - s.index|
    if cfg.ctrl.loopMode = 0 then
      let s := { s with index := (S : ℚ) - L - 1 + remaining,
                        lastPos := S - L - 1 }
      (runWhile (fun t => roundf t.index > t.lastPos) (consumeAt cfg 1)
          (roundf s.index - s.lastPos).toNat s).map (fun t => (t, false))
    else if cfg.ctrl.loopMode = 1 then
      let s := { s with index := (S : ℚ) - remaining - 1, direction := 0 }
      (runWhile (fun t => roundf t.index < t.lastPos) (consumeAt cfg (-1))
          (s.lastPos - roundf s.index).toNat s).map (fun t => (t, false))
    else if cfg.ctrl.loopMode = 2 then
      some (s, true)
    else some (s, false)
  else some (s, false)

/-- Forward branch of `Partial::_next_sample_from_rom` (partial.cc lines
239-288): advance `_index` by the pitch, feed every newly passed PCM value
through the filter cascade, then handle the sample boundary. -/
def advanceFwd (cfg : CursorCfg) (s : CursorState) (pitchAdj : ℚ) :
    Option (CursorState × Bool) :=
  let S : ℤ := cfg.ctrl.sampleLen
  let s := { s with index := s.index + pitchAdj }
  (runWhile (fun t => roundf t.index > t.lastPos ∧ t.lastPos < S - 1)
      (consumeAt cfg 1) (S - 1 - s.lastPos).toNat s).bind (fwdBoundary cfg)

/-- Boundary handling of the backward direction (partial.cc lines 307-329):
once `_index` fell below `sampleLen − loopLen − 1`, flush the remaining
backward samples, flip to forward re-anchored past `sampleLen − loopLen`,
and resync.  The final source loop (line 325) walks
`while (roundf(_index) < _lastPos)` while *incrementing* `_lastPos`: its
guard is invariant under its body, so if the guard held at entry the loop
would never exit normally (it would run the PCM access out of bounds); that
case is `none`.  The surrounding code in fact makes the guard false at entry
— see `advance_total` below. -/
def bwdBoundary (cfg : CursorCfg) (s : CursorState) :
    Option (CursorState × Bool) :=
  let S : ℤ := cfg.ctrl.sampleLen
  let L : ℤ := cfg.ctrl.loopLen
  if s.index < (S : ℚ) - L - 1 then
    (runWhile (fun t => t.lastPos > S - L - 1) (consumeAt cfg (-1))
        (s.lastPos - (S - L - 1)).toNat s).bind (fun t =>
      let remaining : ℚ := (S : ℚ) - L - t.index
      let t := { t with index := (S : ℚ) - L + remaining, direction := 1,
                        lastPos := S - L }
      if roundf t.index < t.lastPos then none else some (t, false))
  else some (s, false)

/-- Backward branch of `Partial::_next_sample_from_rom` (partial.cc lines
290-330). -/
def advanceBwd (cfg : CursorCfg) (s : CursorState) (pitchAdj : ℚ) :
    Option (CursorState × Bool) :=
  let S : ℤ := cfg.ctrl.sampleLen
  let L : ℤ := cfg.ctrl.loopLen
  let s := { s with index := s.index - pitchAdj }
  (runWhile (fun t => roundf t.index < t.lastPos ∧ t.lastPos > S - L)
      (consumeAt cfg (-1)) (s.lastPos - (S - L)).toNat s).bind
    (bwdBoundary cfg)

/-- Models `Partial::_next_sample_from_rom(pitchAdj)` (partial.cc lines
237-333).  Returns the updated cursor and the `bool` result (`true` =
terminate this voice); `none` models abnormal behaviour (a source loop that
would not exit). -/
def advance (cfg : CursorCfg) (s : CursorState) (pitchAdj : ℚ) :
    Option (CursorState × Bool) :=
  if s.direction = 1 then advanceFwd cfg s pitchAdj
  else advanceBwd cfg s pitchAdj

/-- Cursor state at voice construction (partial.cc lines 56-63:
`_index(0)`, `_direction(1)`, `_sample(0)`, `_lastPos(0)`; the filters start
in their constructed state, taken as 0). -/
def cursorInit : CursorState :=
  { index := 0, direction := 1, lastPos := 0, sample := 0, f1 := 0, f2 := 0 }

/-- A sequence of `advance` calls with per-call pitch values, as issued by
`Partial::get_next_sample` once per output sample.  Stops with `none` if a
call reports termination or behaves abnormally. -/
def advanceSeq (cfg : CursorCfg) : List ℚ → CursorState → Option CursorState
  | [], s => some s
  | p :: ps, s =>
      match advance cfg s p with
      | some (s', false) => advanceSeq cfg ps s'
      | _ => none

/-!
Helper lemmas about `roundf`, `consumeAt` and `runWhile`.
-/

theorem consumeAt_index (cfg : CursorCfg) (d : ℤ) (t : CursorState) :
    (consumeAt cfg d t).index = t.index := rfl

theorem consumeAt_direction (cfg : CursorCfg) (d : ℤ) (t : CursorState) :
    (consumeAt cfg d t).direction = t.direction := rfl

theorem consumeAt_lastPos (cfg : CursorCfg) (d : ℤ) (t : CursorState) :
    (consumeAt cfg d t).lastPos = t.lastPos + d := rfl

theorem roundf_le (x : ℚ) : (roundf x : ℚ) ≤ x + 1 / 2 := by
  unfold roundf
  split
  · push_cast
    have h := Int.sub_one_lt_floor (-x + 1 / 2)
    linarith
  · have h := Int.floor_le (x + 1 / 2)
    linarith

theorem le_roundf (x : ℚ) : x - 1 / 2 ≤ (roundf x : ℚ) := by
  unfold roundf
  split
  · push_cast
    have h := Int.floor_le (-x + 1 / 2)
    linarith
  · have h := Int.sub_one_lt_floor (x + 1 / 2)
    linarith

theorem roundf_le_int {x : ℚ} {n : ℤ} (h : x ≤ (n : ℚ)) : roundf x ≤ n := by
  have h1 : (roundf x : ℚ) < (n : ℚ) + 1 := by
    have := roundf_le x
    linarith
  have h2 : roundf x < n + 1 := by exact_mod_cast h1
  omega

theorem int_le_roundf {x : ℚ} {n : ℤ} (h : (n : ℚ) ≤ x) : n ≤ roundf x := by
  have h1 : (n : ℚ) - 1 < (roundf x : ℚ) := by
    have := le_roundf x
    linarith
  have h2 : n - 1 < roundf x := by exact_mod_cast h1
  omega

theorem runWhile_isSome (g : CursorState → Prop) [DecidablePred g]
    (body : CursorState → CursorState) (μ : CursorState → ℕ)
    (hdec : ∀ t, g t → μ (body t) < μ t) :
    ∀ (fuel : ℕ) (s : CursorState), μ s ≤ fuel →
      (runWhile g body fuel s).isSome := by
  intro fuel
  induction fuel with
  | zero =>
      intro s hs
      by_cases h : g s
      · have := hdec s h
        omega
      · simp [runWhile, h]
  | succ n ih =>
      intro s hs
      by_cases h : g s
      · have := hdec s h
        simpa [runWhile, h] using ih (body s) (by omega)
      · simp [runWhile, h]

theorem runWhile_some_inv (g : CursorState → Prop) [DecidablePred g]
    (body : CursorState → CursorState) (P : CursorState → Prop)
    (hP : ∀ t, g t → P t → P (body t)) :
    ∀ (fuel : ℕ) (s s' : CursorState), runWhile g body fuel s = some s' →
      P s → P s' ∧ ¬g s' := by
  intro fuel
  induction fuel with
  | zero =>
      intro s s' hrun hs
      by_cases h : g s
      · simp [runWhile, h] at hrun
      · simp [runWhile, h] at hrun
        exact hrun ▸ ⟨hs, h⟩
  | succ n ih =>
      intro s s' hrun hs
      by_cases h : g s
      · simp only [runWhile, if_pos h] at hrun
        exact ih (body s) s' hrun (hP s h hs)
      · simp [runWhile, h] at hrun
        exact hrun ▸ ⟨hs, h⟩

theorem map_pair_isSome (o : Option CursorState) (ho : o.isSome = true) :
    (Option.map (fun t => (t, false)) o).isSome = true := by
  rcases Option.isSome_iff_exists.mp ho with ⟨t, ht⟩
  rw [ht]
  rfl

theorem bind_isSome_of {X : Type} (o : Option CursorState)
    (f : CursorState → Option X) (ho : o.isSome = true)
    (hf : ∀ t, (f t).isSome = true) : (o.bind f).isSome = true := by
  rcases Option.isSome_iff_exists.mp ho with ⟨t, ht⟩
  rw [ht, Option.some_bind]
  exact hf t

theorem fwdBoundary_isSome (cfg : CursorCfg) (s : CursorState) :
    (fwdBoundary cfg s).isSome = true := by
  simp only [fwdBoundary]
  split
  · split
    · exact map_pair_isSome _
        (runWhile_isSome (fun t => roundf t.index > t.lastPos) (consumeAt cfg 1)
          (fun t => (roundf t.index - t.lastPos).toNat)
          (fun t ht => by
            simp only [consumeAt_index, consumeAt_lastPos]
            omega)
          _ _ le_rfl)
    · split
      · exact map_pair_isSome _
          (runWhile_isSome (fun t => roundf t.index < t.lastPos) (consumeAt cfg (-1))
            (fun t => (t.lastPos - roundf t.index).toNat)
            (fun t ht => by
              simp only [consumeAt_index, consumeAt_lastPos]
              omega)
            _ _ le_rfl)
      · split <;> rfl
  · rfl

theorem advanceFwd_isSome (cfg : CursorCfg) (s : CursorState) (p : ℚ) :
    (advanceFwd cfg s p).isSome = true := by
  simp only [advanceFwd]
  exact bind_isSome_of _ _
    (runWhile_isSome
      (fun t => roundf t.index > t.lastPos ∧ t.lastPos < (cfg.ctrl.sampleLen : ℤ) - 1)
      (consumeAt cfg 1)
      (fun t => ((cfg.ctrl.sampleLen : ℤ) - 1 - t.lastPos).toNat)
      (fun t ht => by
        simp only [consumeAt_lastPos]
        omega)
      _ _ le_rfl)
    (fun t => fwdBoundary_isSome cfg t)

theorem bwdBoundary_isSome (cfg : CursorCfg) (s : CursorState) :
    (bwdBoundary cfg s).isSome = true := by
  simp only [bwdBoundary]
  split
  · rename_i h
    have hrun := runWhile_isSome
      (fun t => t.lastPos > (cfg.ctrl.sampleLen : ℤ) - (cfg.ctrl.loopLen : ℤ) - 1)
      (consumeAt cfg (-1))
      (fun t => (t.lastPos - ((cfg.ctrl.sampleLen : ℤ) - (cfg.ctrl.loopLen : ℤ) - 1)).toNat)
      (fun t ht => by
        simp only [consumeAt_lastPos]
        omega)
      (s.lastPos - ((cfg.ctrl.sampleLen : ℤ) - (cfg.ctrl.loopLen : ℤ) - 1)).toNat s le_rfl
    rcases Option.isSome_iff_exists.mp hrun with ⟨t, ht⟩
    rw [ht, Option.some_bind]
    have hidx : t.index = s.index :=
      (runWhile_some_inv
        (fun t => t.lastPos > (cfg.ctrl.sampleLen : ℤ) - (cfg.ctrl.loopLen : ℤ) - 1)
        (consumeAt cfg (-1)) (fun u => u.index = s.index)
        (fun u _ hu => hu) _ _ _ ht rfl).1
    rw [if_neg]
    · rfl
    · simp only [not_lt]
      apply int_le_roundf
      push_cast
      rw [hidx]
      push_cast at h
      linarith
  · rfl

theorem advanceBwd_isSome (cfg : CursorCfg) (s : CursorState) (p : ℚ) :
    (advanceBwd cfg s p).isSome = true := by
  simp only [advanceBwd]
  exact bind_isSome_of _ _
    (runWhile_isSome
      (fun t => roundf t.index < t.lastPos ∧
        t.lastPos > (cfg.ctrl.sampleLen : ℤ) - (cfg.ctrl.loopLen : ℤ))
      (consumeAt cfg (-1))
      (fun t => (t.lastPos - ((cfg.ctrl.sampleLen : ℤ) - (cfg.ctrl.loopLen : ℤ))).toNat)
      (fun t ht => by
        simp only [consumeAt_lastPos]
        omega)
      _ _ le_rfl)
    (fun t => bwdBoundary_isSome cfg t)

theorem fwdBoundary_mode0 (cfg : CursorCfg) (hm : cfg.ctrl.loopMode = 0)
    (hL : 1 ≤ cfg.ctrl.loopLen) (p : ℚ) (hpL : p < (cfg.ctrl.loopLen : ℚ))
    (t : CursorState) (hdir : t.direction = 1)
    (hlo : (cfg.ctrl.sampleLen : ℚ) - cfg.ctrl.loopLen - 1 ≤ t.index)
    (hhi : t.index ≤ (cfg.ctrl.sampleLen : ℚ) - 1 + p) :
    ∃ s', fwdBoundary cfg t = some (s', false) ∧ s'.direction = 1 ∧
      (cfg.ctrl.sampleLen : ℚ) - cfg.ctrl.loopLen - 1 ≤ s'.index ∧
      s'.index ≤ (cfg.ctrl.sampleLen : ℚ) - 1 := by
  have hLq : (1 : ℚ) ≤ (cfg.ctrl.loopLen : ℚ) := by exact_mod_cast hL
  simp only [fwdBoundary, hm, if_pos rfl]
  split
  · rename_i h
    set u : CursorState :=
      { t with
        index := ((cfg.ctrl.sampleLen : ℤ) : ℚ) - ((cfg.ctrl.loopLen : ℤ) : ℚ) - 1 +
          |((cfg.ctrl.sampleLen : ℤ) : ℚ) - t.index|
        lastPos := (cfg.ctrl.sampleLen : ℤ) - (cfg.ctrl.loopLen : ℤ) - 1 } with hu
    have hrun := runWhile_isSome (fun v => roundf v.index > v.lastPos) (consumeAt cfg 1)
      (fun v => (roundf v.index - v.lastPos).toNat)
      (fun v hv => by
        simp only [consumeAt_index, consumeAt_lastPos]
        omega)
      (roundf u.index - u.lastPos).toNat u le_rfl
    rcases Option.isSome_iff_exists.mp hrun with ⟨w, hw⟩
    have hinv := runWhile_some_inv (fun v => roundf v.index > v.lastPos) (consumeAt cfg 1)
      (fun v => v.index = u.index ∧ v.direction = u.direction)
      (fun v _ hv => by simp [consumeAt_index, consumeAt_direction, hv.1, hv.2]) _ _ _ hw
      ⟨rfl, rfl⟩
    refine ⟨w, ?_, ?_, ?_, ?_⟩
    · rw [hw]
      rfl
    · rw [hinv.1.2, hu, hdir]
    · rw [hinv.1.1, hu]
      have habs : (0 : ℚ) ≤ |((cfg.ctrl.sampleLen : ℤ) : ℚ) - t.index| := abs_nonneg _
      push_cast
      push_cast at habs
      linarith
    · rw [hinv.1.1, hu]
      rcases le_or_lt t.index (cfg.ctrl.sampleLen : ℚ) with hc | hc
      · have habs : |((cfg.ctrl.sampleLen : ℤ) : ℚ) - t.index| =
            ((cfg.ctrl.sampleLen : ℤ) : ℚ) - t.index := by
          apply abs_of_nonneg
          push_cast
          linarith
        rw [habs]
        push_cast
        push_cast at h
        linarith
      · have habs : |((cfg.ctrl.sampleLen : ℤ) : ℚ) - t.index| =
            t.index - ((cfg.ctrl.sampleLen : ℤ) : ℚ) := by
          rw [abs_sub_comm]
          apply abs_of_nonneg
          push_cast
          linarith
        rw [habs]
        push_cast
        linarith
  · rename_i h
    rw [not_lt] at h
    exact ⟨t, rfl, hdir, hlo, by push_cast at h ⊢; linarith⟩

theorem advance_mode0_window (cfg : CursorCfg) (hm : cfg.ctrl.loopMode = 0)
    (hL : 1 ≤ cfg.ctrl.loopLen) (p : ℚ) (hp0 : 0 < p)
    (hpL : p < (cfg.ctrl.loopLen : ℚ)) (s : CursorState) (hdir : s.direction = 1)
    (hlo : (cfg.ctrl.sampleLen : ℚ) - cfg.ctrl.loopLen - 1 ≤ s.index)
    (hhi : s.index ≤ (cfg.ctrl.sampleLen : ℚ) - 1) :
    ∃ s', advance cfg s p = some (s', false) ∧ s'.direction = 1 ∧
      (cfg.ctrl.sampleLen : ℚ) - cfg.ctrl.loopLen - 1 ≤ s'.index ∧
      s'.index ≤ (cfg.ctrl.sampleLen : ℚ) - 1 := by
  unfold advance
  rw [if_pos hdir]
  simp only [advanceFwd]
  set u : CursorState := { s with index := s.index + p } with hu
  have hrun := runWhile_isSome
    (fun t => roundf t.index > t.lastPos ∧ t.lastPos < (cfg.ctrl.sampleLen : ℤ) - 1)
    (consumeAt cfg 1)
    (fun t => ((cfg.ctrl.sampleLen : ℤ) - 1 - t.lastPos).toNat)
    (fun t ht => by
      simp only [consumeAt_lastPos]
      omega)
    ((cfg.ctrl.sampleLen : ℤ) - 1 - u.lastPos).toNat u le_rfl
  rcases Option.isSome_iff_exists.mp hrun with ⟨t, ht⟩
  have hinv := runWhile_some_inv
    (fun t => roundf t.index > t.lastPos ∧ t.lastPos < (cfg.ctrl.sampleLen : ℤ) - 1)
    (consumeAt cfg 1)
    (fun v => v.index = u.index ∧ v.direction = u.direction)
    (fun v _ hv => by simp [consumeAt_index, consumeAt_direction, hv.1, hv.2]) _ _ _ ht
    ⟨rfl, rfl⟩
  rw [ht, Option.some_bind]
  apply fwdBoundary_mode0 cfg hm hL p hpL t
  · rw [hinv.1.2, hu, hdir]
  · rw [hinv.1.1, hu]
    simp only
    linarith
  · rw [hinv.1.1, hu]
    simp only
    linarith

/-- C4 (amended): for every cursor with loop mode 0 (forward loop) and every
sequence of advance calls whose pitch values satisfy `0 < pitchAdj <
loopLen`, once the cursor is in the loop window (which is where every
boundary event of `Partial::_next_sample_from_rom` re-anchors it), after
every advance the fractional index stays in
`[sampleLen − loopLen − 1, sampleLen − 1]` and hence
`sampleLen − loopLen − 1 ≤ round(index) ≤ sampleLen − 1`, with the direction
still forward.  (For loop mode 1 this fails — see the counterexample.) -/
theorem mode0_loop_window_invariant (cfg : CursorCfg)
    (hm : cfg.ctrl.loopMode = 0) (hL : 1 ≤ cfg.ctrl.loopLen) (ps : List ℚ)
    (hp : ∀ p ∈ ps, 0 < p ∧ p < (cfg.ctrl.loopLen : ℚ)) (s : CursorState)
    (hdir : s.direction = 1)
    (hlo : (cfg.ctrl.sampleLen : ℚ) - cfg.ctrl.loopLen - 1 ≤ s.index)
    (hhi : s.index ≤ (cfg.ctrl.sampleLen : ℚ) - 1) :
    (advanceSeq cfg ps s).elim False (fun s' =>
      s'.direction = 1 ∧
      (cfg.ctrl.sampleLen : ℚ) - cfg.ctrl.loopLen - 1 ≤ s'.index ∧
      s'.index ≤ (cfg.ctrl.sampleLen : ℚ) - 1 ∧
      (cfg.ctrl.sampleLen : ℤ) - cfg.ctrl.loopLen - 1 ≤ roundf s'.index ∧
      roundf s'.index ≤ (cfg.ctrl.sampleLen : ℤ) - 1) := by
  induction ps generalizing s with
  | nil =>
      simp only [advanceSeq, Option.elim]
      refine ⟨hdir, hlo, hhi, ?_, ?_⟩
      · apply int_le_roundf
        push_cast
        linarith
      · apply roundf_le_int
        push_cast
        linarith
  | cons p ps ih =>
      obtain ⟨s₁, hadv, hdir₁, hlo₁, hhi₁⟩ :=
        advance_mode0_window cfg hm hL p (hp p (List.mem_cons_self p ps)).1
          (hp p (List.mem_cons_self p ps)).2 s hdir hlo hhi
      simp only [advanceSeq, hadv]
      exact ih (fun q hq => hp q (List.mem_cons_of_mem p hq)) s₁ hdir₁ hlo₁ hhi₁

/-- C5: every call of the cursor advance operation
(`Partial::_next_sample_from_rom`) finishes a bounded amount of work, for
every cursor state and every pitch value: each internal consume/resync loop
runs only finitely many iterations (the fuelled model returns `some`; in
particular the backward→forward resync loop of partial.cc line 325, whose
guard its body cannot falsify, is always entered with a false guard). -/
theorem advance_always_returns (cfg : CursorCfg) (s : CursorState) (p : ℚ) :
    (advance cfg s p).isSome = true := by
  unfold advance
  split
  · exact advanceFwd_isSome cfg s p
  · exact advanceBwd_isSome cfg s p

theorem runWhile_consume_direction (cfg : CursorCfg) {g : CursorState → Prop}
    [DecidablePred g] {d : ℤ} {fuel : ℕ} {s s' : CursorState}
    (h : runWhile g (consumeAt cfg d) fuel s = some s') :
    s'.direction = s.direction :=
  (runWhile_some_inv g (consumeAt cfg d) (fun u => u.direction = s.direction)
    (fun _ _ hu => hu) fuel s s' h rfl).1

theorem fwdBoundary_direction (cfg : CursorCfg) (t : CursorState)
    (r : CursorState × Bool) (h : fwdBoundary cfg t = some r) :
    r.1.direction = t.direction ∨ r.1.direction = 0 := by
  simp only [fwdBoundary] at h
  split at h
  · split at h
    · rcases Option.map_eq_some'.mp h with ⟨w, hw, hr⟩
      left
      have hwd := runWhile_consume_direction cfg hw
      rw [← hr]
      exact hwd
    · split at h
      · rcases Option.map_eq_some'.mp h with ⟨w, hw, hr⟩
        right
        have hwd := runWhile_consume_direction cfg hw
        rw [← hr]
        exact hwd
      · split at h
        · left
          cases h
          rfl
        · left
          cases h
          rfl
  · left
    cases h
    rfl

theorem bwdBoundary_direction (cfg : CursorCfg) (t : CursorState)
    (r : CursorState × Bool) (h : bwdBoundary cfg t = some r) :
    r.1.direction = t.direction ∨ r.1.direction = 1 := by
  simp only [bwdBoundary] at h
  split at h
  · rcases Option.bind_eq_some.mp h with ⟨w, hw, hf⟩
    split at hf
    · cases hf
    · right
      cases hf
      rfl
  · left
    cases h
    rfl

theorem advance_direction (cfg : CursorCfg) (s : CursorState) (p : ℚ)
    (r : CursorState × Bool) (h : advance cfg s p = some r) :
    r.1.direction = s.direction ∨ r.1.direction = 0 ∨ r.1.direction = 1 := by
  unfold advance at h
  split at h
  · simp only [advanceFwd] at h
    rcases Option.bind_eq_some.mp h with ⟨w, hw, hb⟩
    have hwd := runWhile_consume_direction cfg hw
    rcases fwdBoundary_direction cfg w r hb with h1 | h1
    · left
      rw [h1]
      exact hwd
    · right
      left
      exact h1
  · simp only [advanceBwd] at h
    rcases Option.bind_eq_some.mp h with ⟨w, hw, hb⟩
    have hwd := runWhile_consume_direction cfg hw
    rcases bwdBoundary_direction cfg w r hb with h1 | h1
    · left
      rw [h1]
      exact hwd
    · right
      right
      exact h1

/-- C3 (amended): at the end of every advance of the cursor, the direction
state is an element of {0, +1} — the source encodes forward as the literal
`1` and backward as the literal `0` (partial.cc lines 57, 276, 321), not as
{−1, +1} as the spec claims. -/
theorem direction_in_zero_one (cfg : CursorCfg) (s : CursorState) (p : ℚ)
    (hd : s.direction = 0 ∨ s.direction = 1) (r : CursorState × Bool)
    (h : advance cfg s p = some r) : r.1.direction = 0 ∨ r.1.direction = 1 := by
  rcases advance_direction cfg s p r h with h1 | h1 | h1
  · rw [h1]
    exact hd
  · left
    exact h1
  · right
    exact h1

/-!
Envelope lemmas and claim theorems.
-/

theorem curveStep_phase (cfg : EnvCfg α) (s : EnvState α) :
    (curveStep cfg s).1.phase = s.phase := rfl

theorem curveStep_len (cfg : EnvCfg α) (s : EnvState α) :
    (curveStep cfg s).1.phaseSampleLen = s.phaseSampleLen := rfl

theorem curveStep_idx (cfg : EnvCfg α) (s : EnvState α) :
    (curveStep cfg s).1.phaseSampleIndex = s.phaseSampleIndex + 1 := rfl

theorem initNewPhase_release_phase (cfg : EnvCfg α) (s : EnvState α) :
    (initNewPhase cfg s Phase.Release).phase = Phase.Release := rfl

theorem envRelease_phase (cfg : EnvCfg α) (s : EnvState α) :
    (envRelease cfg s).phase = Phase.Release := by
  unfold envRelease
  split
  · assumption
  · rfl

theorem envRelease_of_release (cfg : EnvCfg α) (t : EnvState α)
    (h : t.phase = Phase.Release) : envRelease cfg t = t := by
  simp [envRelease, h]

theorem getNextValue_release_past (cfg : EnvCfg α) (s : EnvState α)
    (h : s.phase = Phase.Release)
    (hidx : s.phaseSampleLen < s.phaseSampleIndex) :
    getNextValue cfg s = ({ s with finished := true }, 0) := by
  simp only [getNextValue, h]
  rw [if_pos hidx]

theorem getNextValue_within (cfg : EnvCfg α) (s : EnvState α)
    (hph : s.phase ≠ Phase.Off)
    (hidx : s.phaseSampleIndex ≤ s.phaseSampleLen) :
    getNextValue cfg s = curveStep cfg s := by
  have hn := not_lt.mpr hidx
  cases hp : s.phase
  · exact absurd hp hph
  all_goals
    simp only [getNextValue, hp]
    rw [if_neg hn]

theorem envIter_release (cfg : EnvCfg α) :
    ∀ (n : ℕ) (s : EnvState α), s.phase = Phase.Release →
      (envIter cfg n s).phase = Phase.Release ∧
      (envIter cfg n s).phaseSampleLen = s.phaseSampleLen ∧
      min (s.phaseSampleIndex + n) (s.phaseSampleLen + 1) ≤
        (envIter cfg n s).phaseSampleIndex := by
  intro n
  induction n with
  | zero =>
      intro s h
      exact ⟨h, rfl, by simp [envIter]⟩
  | succ n ih =>
      intro s h
      rcases Nat.lt_or_ge s.phaseSampleLen s.phaseSampleIndex with hc | hc
      · have hstep := getNextValue_release_past cfg s h hc
        have h1 : (getNextValue cfg s).1 = { s with finished := true } := by
          rw [hstep]
        have hrec := ih { s with finished := true } h
        simp only [envIter, h1]
        refine ⟨hrec.1, hrec.2.1, ?_⟩
        have h2 := hrec.2.2
        simp only at h2 ⊢
        omega
      · have hstep := getNextValue_within cfg s (by rw [h]; decide) hc
        have h1 : (getNextValue cfg s).1 = (curveStep cfg s).1 := by rw [hstep]
        have hrec := ih (curveStep cfg s).1
          (by rw [curveStep_phase, h])
        simp only [envIter, h1]
        refine ⟨hrec.1, ?_, ?_⟩
        · rw [hrec.2.1, curveStep_len]
        · have h2 := hrec.2.2
          rw [curveStep_idx, curveStep_len] at h2
          omega

/-- C2 (amended): for every AHDSR envelope, after a call to `release()` the
envelope is in the Release phase with sample length `L`; the phase emits at
most `L + 1` curve samples (indices `0..L`), and the `(L + 2)`-nd call to
`get_next_value` finds the index past the length, sets `_finished`, and
returns zero.  So `finished` is true and the returned value is zero within
`L + 2` calls (not `L + 1` as claimed: the transition test is
`_phaseSampleIndex > _phaseSampleLen`, ahdsr.cc line 216). -/
theorem release_finishes_within_len_plus_two (cfg : EnvCfg α) (s : EnvState α) :
    (getNextValue cfg (envIter cfg ((envRelease cfg s).phaseSampleLen + 1)
        (envRelease cfg s))).1.finished = true ∧
    (getNextValue cfg (envIter cfg ((envRelease cfg s).phaseSampleLen + 1)
        (envRelease cfg s))).2 = 0 := by
  have hit := envIter_release cfg ((envRelease cfg s).phaseSampleLen + 1)
    (envRelease cfg s) (envRelease_phase cfg s)
  have hpast : (envIter cfg ((envRelease cfg s).phaseSampleLen + 1)
      (envRelease cfg s)).phaseSampleLen <
      (envIter cfg ((envRelease cfg s).phaseSampleLen + 1)
        (envRelease cfg s)).phaseSampleIndex := by
    rcases hit with ⟨-, hlen, hidx⟩
    rw [hlen]
    omega
  have hfin := getNextValue_release_past cfg _ hit.1 hpast
  rw [hfin]
  exact ⟨rfl, rfl⟩

/-- C6: for every envelope in the Sustain phase whose phase sample index has
passed the phase length, `get_next_value` transitions to Release when the
sustain target value (`_phaseValue[ahdsr_Sustain]`) is zero; otherwise it
returns the current value with the state — in particular the sample index —
completely unchanged, so Sustain persists for an unbounded number of calls
(ahdsr.cc lines 208-213). -/
theorem sustain_holds_or_releases (cfg : EnvCfg α) (s : EnvState α)
    (hph : s.phase = Phase.Sustain)
    (hidx : s.phaseSampleLen < s.phaseSampleIndex) :
    (cfg.value Phase.Sustain.slot = 0 →
      (getNextValue cfg s).1.phase = Phase.Release) ∧
    (cfg.value Phase.Sustain.slot ≠ 0 →
      getNextValue cfg s = (s, s.currentValue) ∧
      ∀ n, envIter cfg n s = s) := by
  constructor
  · intro hz
    simp only [getNextValue, hph]
    rw [if_pos hidx, if_pos hz, curveStep_phase, initNewPhase_release_phase]
  · intro hz
    have hstep : getNextValue cfg s = (s, s.currentValue) := by
      simp only [getNextValue, hph]
      rw [if_pos hidx, if_neg hz]
    refine ⟨hstep, ?_⟩
    intro n
    induction n with
    | zero => rfl
    | succ n ihn =>
        simp only [envIter, hstep]
        exact ihn

/-- C7: in every phase of non-zero sample length that is not rolled over
(sample index still within the length), the per-sample output of
`get_next_value` is `init + (target − init) · p` for shape flag 0 and
`init + (target − init) · log10(10p + 1)/log10(11)` for shape flag 1, with
`p = sampleIndex/sampleLen` (ahdsr.cc lines 222-231); the shape flag
consulted for phase P is the configuration-table entry at index
`P.toIdx − 1`, so no entry corresponds to Off — and in the Off phase the
call returns zero without consulting any table entry. -/
theorem phase_curve_formula (cfg : EnvCfg ℝ) (hlog : cfg.logCurve = realLogCurve)
    (s : EnvState ℝ) (hph : s.phase ≠ Phase.Off)
    (hlen : s.phaseSampleLen ≠ 0)
    (hidx : s.phaseSampleIndex ≤ s.phaseSampleLen) :
    ((s.phase.slot : ℕ) = s.phase.toIdx - 1) ∧
    (getNextValue cfg s).2 =
      (if cfg.shape s.phase.slot = true then
        s.phaseInitValue + (cfg.value s.phase.slot - s.phaseInitValue) *
          (Real.logb 10 (10 * (s.phaseSampleIndex : ℝ) / (s.phaseSampleLen : ℝ) + 1) /
            Real.logb 10 11)
      else
        s.phaseInitValue + (cfg.value s.phase.slot - s.phaseInitValue) *
          ((s.phaseSampleIndex : ℝ) / (s.phaseSampleLen : ℝ))) ∧
    (∀ t : EnvState ℝ, t.phase = Phase.Off → getNextValue cfg t = (t, 0)) := by
  have h10 : Real.log 10 ≠ 0 := ne_of_gt (Real.log_pos (by norm_num))
  have heleven : (10 + 1 : ℝ) = 11 := by norm_num
  have hlogb : ∀ x : ℝ, Real.log x / Real.log (10 + 1) =
      Real.logb 10 x / Real.logb 10 11 := by
    intro x
    simp only [Real.logb, heleven]
    rw [div_div_div_comm, div_self h10, div_one]
  have hcs : (curveStep cfg s).2 =
      (if cfg.shape s.phase.slot = true then
        s.phaseInitValue + (cfg.value s.phase.slot - s.phaseInitValue) *
          (Real.logb 10 (10 * (s.phaseSampleIndex : ℝ) / (s.phaseSampleLen : ℝ) + 1) /
            Real.logb 10 11)
      else
        s.phaseInitValue + (cfg.value s.phase.slot - s.phaseInitValue) *
          ((s.phaseSampleIndex : ℝ) / (s.phaseSampleLen : ℝ))) := by
    simp only [curveStep]
    rw [if_neg hlen]
    rcases hsh : cfg.shape s.phase.slot
    · simp
    · simp [hlog, realLogCurve, hlogb]
  refine ⟨Phase.slot_eq_toIdx_sub_one s.phase hph, ?_, ?_⟩
  · rw [getNextValue_within cfg s hph hidx, hcs]
  · intro t ht
    simp only [getNextValue, ht]

/-- C8: `release()` is idempotent — a second call (necessarily arriving in
the Release phase) leaves the envelope state literally unchanged, so the
whole subsequent `get_next_value` state and output sequence is identical
to that after a single call (ahdsr.cc lines 251-257). -/
theorem release_idempotent (cfg : EnvCfg α) (s : EnvState α) :
    envRelease cfg (envRelease cfg s) = envRelease cfg s ∧
    ∀ n, (getNextValue cfg (envIter cfg n
        (envRelease cfg (envRelease cfg s)))).2 =
      (getNextValue cfg (envIter cfg n (envRelease cfg s))).2 := by
  have h := envRelease_of_release cfg (envRelease cfg s) (envRelease_phase cfg s)
  exact ⟨h, fun n => by rw [h]⟩

/-!
Voice shell (`Partial::Partial`, `Partial::get_next_sample`, partial.cc
lines 51-234).
-/

/-- Modelled from the spec: the TVA wrapper (tva.cc is not under src/) is the
amplitude envelope plus LFO; `Partial::get_next_sample` consumes only its
`finished()` flag and its `get_amplification()` value, so only those two are
modelled (the TVA's internal envelope stepping does not influence any claim
here). -/
structure TVAState where
  finished : Bool
  amplification : ℚ
deriving DecidableEq, Repr

/-- State of one voice as far as `get_next_sample` reads it: the cursor, the
TVA pointer (`_tva`, NULL — `none` — when the constructor bailed out before
creating it), the selected sample index, and a marker for the
uninitialized-read of the local `sampleIndex` variable when no break-table
entry matched (partial.cc lines 84-98). -/
structure VoiceState where
  cursor : CursorState
  tva : Option TVAState
  sampleIdx : Option ℕ
  uninitSampleRead : Bool
deriving DecidableEq, Repr

/-- Per-call dynamic inputs of `Partial::get_next_sample`.  `pitchAdj` is the
composed pitch of partial.cc lines 166-180 and `sampleVol`, `partialVol`,
`drumVol` the `_convert_volume` outputs of lines 190-200: these are
transcendental floating-point reads of the Settings store, so their values
enter the model as inputs (no claim depends on them).  `ctrlRaw` and
`panpotRaw` are the raw 7-bit parameters whose arithmetic the source spells
out inline (lines 202, 220-222). -/
structure VoiceDyn where
  pitchAdj : ℚ
  sampleVol : ℚ
  partialVol : ℚ
  drumVol : ℚ
  ctrlRaw : ℤ
  panpotRaw : ℤ
deriving DecidableEq, Repr

/-- Models the break-table walk of `Partial::Partial` (partial.cc lines
84-98): the first entry `j` with `breaks[j] ≥ key + keyShift` or
`breaks[j] == 0x7f` selects `samples[j]`; `none` when no entry matches, in
which case the local `sampleIndex` is never assigned. -/
def selectSampleIndex (breaks samples : Fin 16 → ℕ) (keyAdj : ℤ) : Option ℕ :=
  ((List.finRange 16).find? (fun j =>
    decide (keyAdj ≤ (breaks j : ℤ)) || decide (breaks j = 0x7f))).map samples

/-- Models the construction outcome of `Partial::Partial` as far as the
claims reach it.  On a selected sample index of `0xffff` the constructor
logs and returns early (partial.cc lines 91-95), leaving `_tvp`, `_tvf`,
`_tva` at their `NULL` initializer values (lines 66-68); when no break-table
entry matches, construction continues using the never-assigned local
`sampleIndex` (marked by `uninitSampleRead`); otherwise the voice is fully
constructed (the keyShift composition of lines 72-81 is folded into the
integer `keyAdj = key + keyShift`, and the TVP/TVF/TVA wrappers, whose
sources are not under src/, are represented by the constructed `tva0`). -/
def mkVoice (breaks samples : Fin 16 → ℕ) (keyAdj : ℤ) (tva0 : TVAState) :
    VoiceState :=
  match selectSampleIndex breaks samples keyAdj with
  | some v =>
      if v = 0xffff then
        { cursor := cursorInit, tva := none, sampleIdx := none,
          uninitSampleRead := false }
      else
        { cursor := cursorInit, tva := some tva0, sampleIdx := some v,
          uninitSampleRead := false }
  | none =>
      { cursor := cursorInit, tva := some tva0, sampleIdx := none,
        uninitSampleRead := true }

/-- Models `Partial::get_next_sample(noteSample)` (partial.cc lines 160-233).
Returns the updated voice, the caller's stereo accumulator, and the
terminated flag; `none` models undefined behaviour: the dereference of a
NULL `_tva` (line 163) after a failed construction, or an abnormal cursor
advance.  The early returns at lines 163-164 and 182-183 leave the
accumulator untouched; otherwise the volume chain, TVA amplification and
panpot are applied and the stereo pair is added into the accumulator
(lines 185-231; the TVF stage at line 209 is commented out in the source
and therefore absent here). -/
def getNextSample (cfg : CursorCfg) (dyn : VoiceDyn) (v : VoiceState)
    (noteSample : ℚ × ℚ) : Option (VoiceState × (ℚ × ℚ) × Bool) :=
  match v.tva with
  | none => none
  | some tva =>
    if tva.finished then some (v, noteSample, true)
    else
      match advance cfg v.cursor dyn.pitchAdj with
      | none => none
      | some (cur, true) => some ({ v with cursor := cur }, noteSample, true)
      | some (cur, false) =>
          let ctrlVol : ℚ := (dyn.ctrlRaw : ℚ) / 64
          let m : ℚ := cur.sample *
            (dyn.sampleVol * dyn.partialVol * dyn.drumVol * ctrlVol) *
            tva.amplification
          let panpot : ℚ := ((dyn.panpotRaw : ℚ) - 0x40) / 64
          let pair : ℚ × ℚ :=
            if panpot < 0 then (m, m * (1 + panpot))
            else if panpot > 0 then (m * (1 - panpot), m)
            else (m, m)
          some ({ v with cursor := cur },
            (noteSample.1 + pair.1, noteSample.2 + pair.2), false)

/-- C10: the break-table walk assigns the selected sample index exactly when
some entry `j` satisfies `breaks[j] ≥ key + keyShift` or `breaks[j] = 0x7f`;
when no entry matches, construction continues with the local `sampleIndex`
variable never assigned (the `uninitSampleRead` marker), so well-defined
sample selection requires a matching break-table entry. -/
theorem sample_selection_requires_break_match (breaks samples : Fin 16 → ℕ)
    (keyAdj : ℤ) (tva0 : TVAState) :
    ((selectSampleIndex breaks samples keyAdj).isSome ↔
      ∃ j : Fin 16, keyAdj ≤ (breaks j : ℤ) ∨ breaks j = 0x7f) ∧
    ((mkVoice breaks samples keyAdj tva0).uninitSampleRead = true ↔
      selectSampleIndex breaks samples keyAdj = none) := by
  constructor
  · simp [selectSampleIndex, List.find?_isSome, List.mem_finRange]
  · rcases hsel : selectSampleIndex breaks samples keyAdj with _ | v
    · simp [mkVoice, hsel]
    · simp only [mkVoice, hsel]
      split
      · simp
      · simp

/-- Break table whose first entry matches every key (`0x7f` is the
catch-all break value). -/
def ffffBreaks : Fin 16 → ℕ := fun _ => 0x7f

/-- Sample table carrying the invalid sample index `0xffff`. -/
def ffffSamples : Fin 16 → ℕ := fun _ => 0xffff

/-- A TVA as the constructor would have produced it. -/
def plainTVA : TVAState := { finished := false, amplification := 1 }

/-- An arbitrary cursor configuration for exercising `getNextSample`. -/
def plainCursorCfg : CursorCfg :=
  { ctrl := { sampleLen := 100, loopLen := 20, loopMode := 0 },
    pcm := fun _ => 0, rfApply := fun st x => (st, x) }

/-- Neutral per-call inputs for `getNextSample`. -/
def plainDyn : VoiceDyn :=
  { pitchAdj := 1, sampleVol := 1, partialVol := 1, drumVol := 1,
    ctrlRaw := 64, panpotRaw := 0x40 }

/-- C1: evaluation of the code at the failing input.  When the break-table
walk selects sample index `0xffff`, `Partial::Partial` returns early with
`_tva` still `NULL` (partial.cc lines 66-68, 91-95), and the first call to
`get_next_sample` dereferences that null pointer (line 163) — undefined
behaviour, modelled as `none` — instead of cleanly reporting
`terminated = true` as the spec requires. -/
theorem construction_failure_dereferences_null_tva :
    (mkVoice ffffBreaks ffffSamples 60 plainTVA).tva = none ∧
    getNextSample plainCursorCfg plainDyn
      (mkVoice ffffBreaks ffffSamples 60 plainTVA) (0, 0) = none := by
  decide

/-- C9: whenever `get_next_sample` returns `terminated = true` — because the
TVA envelope reports finished (partial.cc lines 163-164) or because the
cursor reported termination, i.e. a forward-stop sample ran past its end
(lines 182-183) — the caller's two-element stereo accumulator is returned
completely unchanged: the accumulation at lines 230-231 is never reached. -/
theorem terminated_leaves_accumulator_unchanged (cfg : CursorCfg)
    (dyn : VoiceDyn) (v : VoiceState) (ns : ℚ × ℚ) (v' : VoiceState)
    (ns' : ℚ × ℚ) (h : getNextSample cfg dyn v ns = some (v', ns', true)) :
    ns' = ns := by
  rcases htva : v.tva with _ | tva
  · simp only [getNextSample, htva] at h
    cases h
  · simp only [getNextSample, htva] at h
    by_cases hf : tva.finished
    · rw [if_pos hf] at h
      simp only [Option.some.injEq, Prod.mk.injEq] at h
      exact h.2.1.symm
    · rw [if_neg hf] at h
      rcases hadv : advance cfg v.cursor dyn.pitchAdj with _ | ⟨cur, b⟩
      · rw [hadv] at h
        cases h
      · rw [hadv] at h
        cases b
        · simp at h
        · simp only [Option.some.injEq, Prod.mk.injEq] at h
          exact h.2.1.symm

/-!
Concrete instances: counterexamples and witnesses.
-/

/-- A started envelope whose release phase has sample length 0 (reachable:
`round(seconds · sampleRate)` is 0 for duration byte 0 at low sample rates
or with strong key scaling). -/
def envCexCfg : EnvCfg ℚ :=
  { value := ![1, 1, 1/2, 1/5, 1/4], shape := fun _ => false,
    phaseLen := ![2, 2, 2, 3, 0], logCurve := fun _ _ => 0 }

-- C2 as stated is false: here the release phase has sample length L = 0, so
-- the claim demands `finished ∧ value = 0` within L + 1 = 1 call; but after
-- the release() and one call finished is still false and the call returned
-- the release target 1/4 ≠ 0.  (The second call — the amended L + 2 bound —
-- does finish with value 0.)
unseal Rat.add Rat.sub Rat.mul Rat.inv in
theorem release_within_len_plus_one_fails :
    (envRelease envCexCfg (envStart envCexCfg envInit)).phaseSampleLen = 0 ∧
    (envRelease envCexCfg (envStart envCexCfg envInit)).finished = false ∧
    (envIter envCexCfg 1
      (envRelease envCexCfg (envStart envCexCfg envInit))).finished = false ∧
    (getNextValue envCexCfg
      (envRelease envCexCfg (envStart envCexCfg envInit))).2 = 1/4 ∧
    (envIter envCexCfg 2
      (envRelease envCexCfg (envStart envCexCfg envInit))).finished = true := by
  decide

/-- A ping-pong (loop mode 1) sample of length 10 with loop length 5. -/
def pingpongDirCfg : CursorCfg :=
  { ctrl := { sampleLen := 10, loopLen := 5, loopMode := 1 },
    pcm := fun _ => 0, rfApply := fun st x => (st, x) }

-- C3 as stated is false: one advance from the freshly constructed cursor
-- crosses the sample boundary of a ping-pong sample, and the flip sets the
-- direction state to 0 — not an element of {−1, +1}.
unseal Rat.add Rat.sub Rat.mul Rat.inv in
theorem direction_zero_after_flip :
    advance pingpongDirCfg cursorInit (19/2) =
      some (⟨17/2, 0, 9, 0, 0, 0⟩, false) ∧
    ¬((⟨17/2, 0, 9, 0, 0, 0⟩ : CursorState).direction = -1 ∨
      (⟨17/2, 0, 9, 0, 0, 0⟩ : CursorState).direction = 1) := by
  decide

unseal Rat.add Rat.sub Rat.mul Rat.inv in
theorem direction_in_zero_one_witness :
    (cursorInit.direction = 0 ∨ cursorInit.direction = 1) ∧
    ((⟨17/2, 0, 9, 0, 0, 0⟩ : CursorState).direction = 0 ∨
      (⟨17/2, 0, 9, 0, 0, 0⟩ : CursorState).direction = 1) :=
  ⟨Or.inr rfl,
    direction_in_zero_one pingpongDirCfg cursorInit (19/2) (Or.inr rfl)
      (⟨17/2, 0, 9, 0, 0, 0⟩, false) (by decide)⟩

/-- A ping-pong (loop mode 1) sample of length 100 with loop length 20. -/
def pingpongCfg : CursorCfg :=
  { ctrl := { sampleLen := 100, loopLen := 20, loopMode := 1 },
    pcm := fun _ => 0, rfApply := fun st x => (st, x) }

-- C4 as stated is false for loop mode 1: six advances with pitch 19 take the
-- fresh cursor through a boundary event into the loop window (index 85,
-- round(index) = 85 ∈ [79, 99], moving backward); with pitches 11/2 and then
-- 159/8 = 19.875 — all inside (0, loopLen) — the backward→forward turnaround
-- re-anchors the index to 803/8 = 100.375, whose round 100 exceeds
-- sampleLen − 1 = 99.  All values are dyadic, so the source's float
-- arithmetic is exact on this trace.
unseal Rat.add Rat.sub Rat.mul Rat.inv in
theorem pingpong_window_violation :
    advanceSeq pingpongCfg [19, 19, 19, 19, 19, 19] cursorInit =
      some ⟨85, 0, 85, 0, 0, 0⟩ ∧
    (∀ p ∈ [(19 : ℚ), 19, 19, 19, 19, 19, 11/2, 159/8],
      0 < p ∧ p < (pingpongCfg.ctrl.loopLen : ℚ)) ∧
    ((pingpongCfg.ctrl.sampleLen : ℤ) - pingpongCfg.ctrl.loopLen - 1 ≤
        roundf (85 : ℚ) ∧
      roundf (85 : ℚ) ≤ (pingpongCfg.ctrl.sampleLen : ℤ) - 1) ∧
    advanceSeq pingpongCfg [11/2, 159/8] ⟨85, 0, 85, 0, 0, 0⟩ =
      some ⟨803/8, 1, 80, 0, 0, 0⟩ ∧
    roundf ((803 : ℚ)/8) = 100 ∧
    ¬(roundf ((803 : ℚ)/8) ≤ (pingpongCfg.ctrl.sampleLen : ℤ) - 1) := by
  decide

/-- A forward-loop (loop mode 0) sample of length 100 with loop length 20. -/
def fwdLoopCfg : CursorCfg :=
  { ctrl := { sampleLen := 100, loopLen := 20, loopMode := 0 },
    pcm := fun _ => 0, rfApply := fun st x => (st, x) }

unseal Rat.add Rat.sub Rat.mul Rat.inv in
theorem mode0_loop_window_invariant_witness :
    fwdLoopCfg.ctrl.loopMode = 0 ∧ 1 ≤ fwdLoopCfg.ctrl.loopLen ∧
    (∀ p ∈ [(1 : ℚ), 3/2], 0 < p ∧ p < (fwdLoopCfg.ctrl.loopLen : ℚ)) ∧
    (⟨85, 1, 85, 0, 0, 0⟩ : CursorState).direction = 1 ∧
    (fwdLoopCfg.ctrl.sampleLen : ℚ) - fwdLoopCfg.ctrl.loopLen - 1 ≤ (85 : ℚ) ∧
    (85 : ℚ) ≤ (fwdLoopCfg.ctrl.sampleLen : ℚ) - 1 ∧
    (advanceSeq fwdLoopCfg [1, 3/2] ⟨85, 1, 85, 0, 0, 0⟩).elim False (fun s' =>
      s'.direction = 1 ∧
      (fwdLoopCfg.ctrl.sampleLen : ℚ) - fwdLoopCfg.ctrl.loopLen - 1 ≤ s'.index ∧
      s'.index ≤ (fwdLoopCfg.ctrl.sampleLen : ℚ) - 1 ∧
      (fwdLoopCfg.ctrl.sampleLen : ℤ) - fwdLoopCfg.ctrl.loopLen - 1 ≤
        roundf s'.index ∧
      roundf s'.index ≤ (fwdLoopCfg.ctrl.sampleLen : ℤ) - 1) :=
  ⟨rfl, by decide, by decide, rfl, by decide, by decide,
    mode0_loop_window_invariant fwdLoopCfg rfl (by decide) [1, 3/2] (by decide)
      ⟨85, 1, 85, 0, 0, 0⟩ rfl (by decide) (by decide)⟩

/-- An envelope configuration holding a non-zero sustain target. -/
def sustainCfg : EnvCfg ℚ :=
  { value := ![1, 1, 1/2, 1/5, 0], shape := fun _ => false,
    phaseLen := ![2, 2, 2, 3, 4], logCurve := fun _ _ => 0 }

/-- A sustain-phase state whose sample index has passed the phase length. -/
def sustainState : EnvState ℚ :=
  { phase := Phase.Sustain, phaseSampleIndex := 4, phaseSampleLen := 3,
    phaseInitValue := 1/2, currentValue := 1/5, finished := false }

unseal Rat.add Rat.sub Rat.mul Rat.inv in
theorem sustain_holds_or_releases_witness :
    sustainState.phase = Phase.Sustain ∧
    sustainState.phaseSampleLen < sustainState.phaseSampleIndex ∧
    sustainCfg.value Phase.Sustain.slot ≠ 0 ∧
    getNextValue sustainCfg sustainState =
      (sustainState, sustainState.currentValue) ∧
    envIter sustainCfg 5 sustainState = sustainState :=
  ⟨rfl, by decide, by decide,
    ((sustain_holds_or_releases sustainCfg sustainState rfl
      (by decide)).2 (by decide)).1,
    ((sustain_holds_or_releases sustainCfg sustainState rfl
      (by decide)).2 (by decide)).2 5⟩

/-- An all-log-shape envelope configuration over `ℝ` with the source's log
curve. -/
noncomputable def attackRealCfg : EnvCfg ℝ :=
  { value := fun _ => 1, shape := fun _ => true, phaseLen := fun _ => 2,
    logCurve := realLogCurve }

/-- An attack-phase state midway through a length-2 phase. -/
noncomputable def attackRealState : EnvState ℝ :=
  { phase := Phase.Attack, phaseSampleIndex := 1, phaseSampleLen := 2,
    phaseInitValue := 0, currentValue := 0, finished := false }

theorem phase_curve_formula_witness :
    ((Phase.Attack.slot : ℕ) = Phase.Attack.toIdx - 1) ∧
    (getNextValue attackRealCfg attackRealState).2 =
      (if attackRealCfg.shape attackRealState.phase.slot = true then
        attackRealState.phaseInitValue +
          (attackRealCfg.value attackRealState.phase.slot -
            attackRealState.phaseInitValue) *
          (Real.logb 10 (10 * (attackRealState.phaseSampleIndex : ℝ) /
              (attackRealState.phaseSampleLen : ℝ) + 1) /
            Real.logb 10 11)
      else
        attackRealState.phaseInitValue +
          (attackRealCfg.value attackRealState.phase.slot -
            attackRealState.phaseInitValue) *
          ((attackRealState.phaseSampleIndex : ℝ) /
            (attackRealState.phaseSampleLen : ℝ))) ∧
    getNextValue attackRealCfg (envInit : EnvState ℝ) = (envInit, 0) :=
  ⟨(phase_curve_formula attackRealCfg rfl attackRealState (by decide)
      (by decide) (by decide)).1,
    (phase_curve_formula attackRealCfg rfl attackRealState (by decide)
      (by decide) (by decide)).2.1,
    (phase_curve_formula attackRealCfg rfl attackRealState (by decide)
      (by decide) (by decide)).2.2 envInit rfl⟩

/-- A voice whose TVA reports finished. -/
def finishedVoice : VoiceState :=
  { cursor := cursorInit, tva := some { finished := true, amplification := 1 },
    sampleIdx := some 5, uninitSampleRead := false }

theorem terminated_leaves_accumulator_unchanged_witness :
    getNextSample plainCursorCfg plainDyn finishedVoice (3, 4) =
      some (finishedVoice, ((3 : ℚ), (4 : ℚ)), true) ∧
    ((3 : ℚ), (4 : ℚ)) = ((3 : ℚ), (4 : ℚ)) :=
  ⟨by decide,
    terminated_leaves_accumulator_unchanged plainCursorCfg plainDyn
      finishedVoice (3, 4) finishedVoice (3, 4) (by decide)⟩

end EmuSC
